import Mathlib

/-!
Verification of the SmartStream AlgoQuest training pipeline
(`ai-training/train_real_model.py` and `ai-training/train_silesia.py`):
chunk sampling, Shannon entropy estimation, type-hint classification,
the codec race and the thresholded label policy.

Modelling conventions: Python `bytes` become `List (Fin 256)`; Python
floats become exact real numbers `ℝ` (threshold comparisons, which the
scripts do on small decimal constants, are modelled over `ℚ`); a fallible
codec call becomes a function returning `Option ℕ` (the compressed size,
or `none` when the codec raises). The two external compressors are
oracles: `brotli q data` is the size of Brotli output at quality `q`,
`zstd l data` the size of Zstd output at level `l`.
-/

namespace SmartStream

/-- A byte value, `0..255`. -/
abbrev Byte := Fin 256

/-- `get_entropy` from `train_real_model.py` (lines 13-19): 256-bin byte
histogram Shannon entropy, `-Σ p_x · log2 p_x` over bins with `p_x > 0`;
empty input returns 0. -/
noncomputable def get_entropy (data : List Byte) : ℝ :=
  if data = [] then 0
  else ∑ x : Byte,
    if 0 < data.count x then
      -(((data.count x : ℝ)) / data.length) *
        Real.logb 2 ((data.count x : ℝ) / data.length)
    else 0

/-- `calculate_entropy` from `train_silesia.py` (lines 65-71); its body is
textually identical to `get_entropy`. -/
noncomputable def calculate_entropy (data : List Byte) : ℝ :=
  if data = [] then 0
  else ∑ x : Byte,
    if 0 < data.count x then
      -(((data.count x : ℝ)) / data.length) *
        Real.logb 2 ((data.count x : ℝ) / data.length)
    else 0

/-- The shared threshold decision of `get_best_algo` (train_real_model.py
lines 37-46) and `get_best_label` (train_silesia.py lines 126-136), as a
pure function of the three sizes: `None` (2) when the best compressed size
saves less than 5%, else Brotli (0) when it beats Zstd by more than 2%,
else Zstd (1). -/
def decideLabel (original_size brotli_size zstd_size : ℕ) : ℕ :=
  if ((min brotli_size zstd_size : ℕ) : ℚ) > (original_size : ℚ) * (95 / 100) then 2
  else if (brotli_size : ℚ) < (zstd_size : ℚ) * (98 / 100) then 0
  else 1

/-- `get_best_algo` from `train_real_model.py` (lines 21-46), with the file
read replaced by its content `data` and the codecs passed as oracles.
Empty input returns label 2 before any codec call. The Brotli call (at the
library default quality 11) is inside `try/except` with fallback
`original_size`; the Zstd call (level 3) has no handler, so its failure
propagates (`none`). -/
def get_best_algo (brotli : ℕ → List Byte → Option ℕ)
    (zstd : ℕ → List Byte → Option ℕ) (data : List Byte) : Option ℕ :=
  let original_size := data.length
  if original_size = 0 then some 2
  else
    let brotli_size := (brotli 11 data).getD original_size
    match zstd 3 data with
    | none => none
    | some zstd_size => some (decideLabel original_size brotli_size zstd_size)

/-- `get_best_label` from `train_silesia.py` (lines 107-136): same shape as
`get_best_algo` but Brotli runs at quality 4 (`quality=4`); Zstd again at
level 3 and unprotected. -/
def get_best_label (brotli : ℕ → List Byte → Option ℕ)
    (zstd : ℕ → List Byte → Option ℕ) (data : List Byte) : Option ℕ :=
  let original := data.length
  if original = 0 then some 2
  else
    let brotli_size := (brotli 4 data).getD original
    match zstd 3 data with
    | none => none
    | some zstd_size => some (decideLabel original brotli_size zstd_size)

/-- The head/mid/tail chunk sample of `train_real_model.py` (lines 61-68)
and `train_silesia.py` (lines 81-89): read 16384 bytes from offset 0, from
`max(0, size // 2)` and from `max(0, size - 16384)`. Over `ℕ`, truncated
subtraction coincides with `max 0 (size - 16384)`. -/
def sampleChunks (data : List Byte) : List (List Byte) :=
  [data.take 16384,
   (data.drop (data.length / 2)).take 16384,
   (data.drop (data.length - 16384)).take 16384]

/-- `avg_entropy` of `train_real_model.py` (lines 71-72): the mean of the
entropies of all three chunks (`sum(entropies) / len(entropies)`), with no
filtering of empty chunks. -/
noncomputable def avg_entropy (data : List Byte) : ℝ :=
  let entropies := (sampleChunks data).map get_entropy
  entropies.sum / entropies.length

/-- The average entropy of `extract_features` in `train_silesia.py`
(lines 92-93): entropies of the non-empty chunks only
(`[calculate_entropy(c) for c in [head, mid, tail] if c]`), `0` when that
list is empty. -/
noncomputable def avg_entropy_silesia (data : List Byte) : ℝ :=
  let nonempty := (sampleChunks data).filter (fun c => !c.isEmpty)
  let entropies := nonempty.map calculate_entropy
  if nonempty.isEmpty then 0 else entropies.sum / entropies.length

/-- Python `str.split(sep)` for a single-character separator, on the
`List Char` model of strings: splitting `""` gives `[""]`, and every
occurrence of `sep` opens a new part. -/
def splitOnChar (sep : Char) : List Char → List (List Char)
  | [] => [[]]
  | c :: rest =>
    match splitOnChar sep rest with
    | [] => [[]]
    | p :: ps => if c = sep then [] :: p :: ps else (c :: p) :: ps

/-- The extension-based type hint of `train_real_model.py` (lines 74-78):
`ext = filename.split('.')[-1].lower()`; `1` for `txt/csv/js/md`, then `2`
for `jpg/mp4/zip`, else `0`. -/
def hintExt (filename : List Char) : ℕ :=
  let ext := ((splitOnChar '.' filename).getLastD []).map Char.toLower
  let h := if ext ∈ ["txt".data, "csv".data, "js".data, "md".data] then 1 else 0
  if ext ∈ ["jpg".data, "mp4".data, "zip".data] then 2 else h

/-- The basename-based type hint of `train_silesia.py` (lines 98-103):
lower-cased name; `1` for the text allow-list, then `2` for a `.zst`
suffix or the name `mr`, else `0`. -/
def hintName (filename : List Char) : ℕ :=
  let name := filename.map Char.toLower
  let h := if name ∈ ["dickens".data, "samba".data, "webster".data, "xml".data] then 1 else 0
  if (".zst".data.isSuffixOf name || name ∈ ["mr".data]) then 2 else h

/-- The feature vector built by `train_real_model.py` (line 80):
`[avg_entropy, log10(file_size + 1), hint]`. -/
noncomputable def features_real (filename : List Char) (data : List Byte) : List ℝ :=
  [avg_entropy data, Real.logb 10 ((data.length : ℝ) + 1), (hintExt filename : ℝ)]

/-- `extract_features` from `train_silesia.py` (lines 73-105), with the
file reads replaced by the content `data`:
`[avg_entropy, log10(file_size + 1), hint]`. -/
noncomputable def extract_features (filename : List Char) (data : List Byte) : List ℝ :=
  [avg_entropy_silesia data, Real.logb 10 ((data.length : ℝ) + 1), (hintName filename : ℝ)]

/-! ### Specification-side definitions

These restate, in the spec's own words, the quantities the claims compare
against the code-derived definitions above. -/

/-- Shannon entropy of a chunk's 256-bin byte histogram, stated as in the
spec: `-Σ p_i·log2(p_i)` over bins with `p_i > 0`, where `p_i` is the
relative frequency of byte value `i`. -/
noncomputable def specHistEntropy (data : List Byte) : ℝ :=
  ∑ x : Byte,
    if 0 < (data.count x : ℝ) / data.length then
      -((data.count x : ℝ) / data.length) * Real.logb 2 ((data.count x : ℝ) / data.length)
    else 0

/-- The spec's average entropy of a chunk list: the arithmetic mean of the
entropies of the non-empty chunks only, and `0` when all chunks are
empty. -/
noncomputable def specMeanNonempty (cs : List (List Byte)) : ℝ :=
  let nonempty := cs.filter (fun c => !c.isEmpty)
  if nonempty.isEmpty then 0
  else (nonempty.map get_entropy).sum / (nonempty.map get_entropy).length

/-! ### Helper lemmas on the entropy estimator -/

theorem sum_count_eq_length (data : List Byte) :
    ∑ x : Byte, data.count x = data.length := by
  induction data with
  | nil => simp
  | cons a l ih =>
    simp only [List.count_cons, List.length_cons, Finset.sum_add_distrib, ih]
    simp

theorem sum_count_div_length (data : List Byte) (h : data ≠ []) :
    ∑ x : Byte, (data.count x : ℝ) / data.length = 1 := by
  have hlen : (0 : ℝ) < data.length := by
    exact_mod_cast List.length_pos.mpr h
  rw [← Finset.sum_div]
  rw [show ∑ x : Byte, (data.count x : ℝ) = (data.length : ℝ) by
    exact_mod_cast congrArg (Nat.cast (R := ℝ)) (sum_count_eq_length data)]
  exact div_self hlen.ne'

/-- Both entropy functions of the two scripts are the same function. -/
theorem calculate_entropy_eq (data : List Byte) :
    calculate_entropy data = get_entropy data := rfl

/-- The entropy estimator, rewritten through `Real.negMulLog` in natural
logarithm units. -/
theorem get_entropy_eq_negMulLog (data : List Byte) :
    get_entropy data =
      (∑ x : Byte, Real.negMulLog ((data.count x : ℝ) / data.length)) / Real.log 2 := by
  by_cases h : data = []
  · subst h
    simp [get_entropy, Real.negMulLog_zero]
  · have hlen : (0 : ℝ) < data.length := by
      exact_mod_cast List.length_pos.mpr h
    rw [get_entropy, if_neg h, Finset.sum_div]
    refine Finset.sum_congr rfl fun x _ => ?_
    by_cases hc : 0 < data.count x
    · rw [if_pos hc, Real.negMulLog, Real.logb]
      ring
    · have hc0 : data.count x = 0 := Nat.eq_zero_of_not_pos hc
      rw [if_neg hc, hc0]
      simp [Real.negMulLog_zero]

/-- Pointwise Gibbs-style bound: `negMulLog p ≤ p·log 256 + (1/256 - p)`
for `p ≥ 0`. -/
theorem negMulLog_le_gibbs {p : ℝ} (hp : 0 ≤ p) :
    Real.negMulLog p ≤ p * Real.log 256 + (1 / 256 - p) := by
  rcases hp.eq_or_lt with h | h
  · rw [← h]
    simp [Real.negMulLog_zero]
  · have h256p : (0 : ℝ) < 256 * p := by positivity
    have hlog := Real.log_le_sub_one_of_pos (inv_pos.mpr h256p)
    have hinv : Real.log (256 * p)⁻¹ = -(Real.log 256 + Real.log p) := by
      rw [Real.log_inv, Real.log_mul (by norm_num) h.ne']
    rw [hinv] at hlog
    have hmul := mul_le_mul_of_nonneg_left hlog h.le
    have hpinv : p * (256 * p)⁻¹ = 1 / 256 := by
      field_simp
      ring
    rw [Real.negMulLog]
    nlinarith [hmul, hpinv]

theorem get_entropy_nonneg (data : List Byte) : 0 ≤ get_entropy data := by
  rw [get_entropy]
  by_cases h : data = []
  · rw [if_pos h]
  · rw [if_neg h]
    refine Finset.sum_nonneg fun x _ => ?_
    by_cases hc : 0 < data.count x
    · rw [if_pos hc]
      have hlen : (0 : ℝ) < data.length := by
        exact_mod_cast List.length_pos.mpr h
      have hp0 : (0 : ℝ) ≤ (data.count x : ℝ) / data.length := by positivity
      have hp1 : (data.count x : ℝ) / data.length ≤ 1 := by
        rw [div_le_one hlen]
        exact_mod_cast data.count_le_length x
      have hlb : Real.logb 2 ((data.count x : ℝ) / data.length) ≤ 0 :=
        Real.logb_nonpos one_lt_two hp0 hp1
      have := mul_nonpos_of_nonneg_of_nonpos hp0 hlb
      linarith
    · rw [if_neg hc]

theorem get_entropy_le_eight (data : List Byte) : get_entropy data ≤ 8 := by
  by_cases h : data = []
  · rw [get_entropy, if_pos h]
    norm_num
  · rw [get_entropy_eq_negMulLog]
    have hlen : (0 : ℝ) < data.length := by
      exact_mod_cast List.length_pos.mpr h
    have hsum1 := sum_count_div_length data h
    have hbound : ∑ x : Byte, Real.negMulLog ((data.count x : ℝ) / data.length) ≤
        Real.log 256 := by
      calc ∑ x : Byte, Real.negMulLog ((data.count x : ℝ) / data.length)
          ≤ ∑ x : Byte, (((data.count x : ℝ) / data.length) * Real.log 256 +
              (1 / 256 - (data.count x : ℝ) / data.length)) :=
            Finset.sum_le_sum fun x _ =>
              negMulLog_le_gibbs (div_nonneg (Nat.cast_nonneg _) (Nat.cast_nonneg _))
        _ = (∑ x : Byte, (data.count x : ℝ) / data.length) * Real.log 256 +
              ((256 : ℝ) * (1 / 256) -
               ∑ x : Byte, (data.count x : ℝ) / data.length) := by
            rw [Finset.sum_add_distrib, Finset.sum_sub_distrib, ← Finset.sum_mul,
              Finset.sum_const, Finset.card_univ, Fintype.card_fin, nsmul_eq_mul]
            norm_num
        _ = Real.log 256 := by
            rw [hsum1]
            norm_num
    have hlog2 : (0 : ℝ) < Real.log 2 := Real.log_pos one_lt_two
    rw [div_le_iff₀ hlog2]
    have h256 : Real.log 256 = 8 * Real.log 2 := by
      rw [show (256 : ℝ) = 2 ^ (8 : ℕ) by norm_num, Real.log_pow]
      push_cast
      ring
    linarith

theorem get_entropy_nil : get_entropy [] = 0 := by
  simp [get_entropy]

/-- A constant-byte buffer of positive length has entropy 0. -/
theorem get_entropy_replicate (n : ℕ) (b : Byte) (hn : 0 < n) :
    get_entropy (List.replicate n b) = 0 := by
  have hne : List.replicate n b ≠ [] := by
    intro hcon
    have := congrArg List.length hcon
    simp at this
    omega
  rw [get_entropy, if_neg hne]
  refine Finset.sum_eq_zero fun x _ => ?_
  by_cases hx : x = b
  · subst hx
    rw [List.count_replicate_self, List.length_replicate]
    have hdiv : (n : ℝ) / (n : ℝ) = 1 := div_self (by exact_mod_cast hn.ne')
    rw [if_pos hn, hdiv, Real.logb_one]
    ring
  · have hc : (List.replicate n b).count x = 0 := by
      rw [List.count_replicate]
      simp only [beq_iff_eq]
      rw [if_neg (fun hbx => hx hbx.symm)]
    rw [hc]
    simp

/-- A chunk containing each of the 256 byte values exactly once has
entropy exactly 8. -/
theorem get_entropy_finRange : get_entropy (List.finRange 256) = 8 := by
  have hne : (List.finRange 256 : List Byte) ≠ [] := by
    intro hcon
    have := congrArg List.length hcon
    rw [List.length_finRange] at this
    simp at this
  have hcount : ∀ x : Byte, (List.finRange 256).count x = 1 := fun x =>
    List.count_eq_one_of_mem (List.nodup_finRange 256) (List.mem_finRange x)
  have hlog2 : Real.log 2 ≠ 0 := (Real.log_pos one_lt_two).ne'
  have hlogb : Real.logb 2 ((1 : ℝ) / 256) = -8 := by
    have h1 : Real.log ((1 : ℝ) / 256) = -(8 * Real.log 2) := by
      rw [one_div, Real.log_inv, show (256 : ℝ) = 2 ^ (8 : ℕ) by norm_num, Real.log_pow]
      push_cast
      ring
    rw [Real.logb, h1]
    field_simp
  rw [get_entropy, if_neg hne]
  have hterm : ∀ x : Byte,
      (if 0 < (List.finRange 256).count x then
        -(((List.finRange 256).count x : ℝ) / (List.finRange 256).length) *
          Real.logb 2 (((List.finRange 256).count x : ℝ) / (List.finRange 256).length)
      else 0) = 8 / 256 := by
    intro x
    rw [hcount x, List.length_finRange, if_pos Nat.one_pos]
    push_cast
    rw [hlogb]
    ring
  rw [Finset.sum_congr rfl fun x _ => hterm x, Finset.sum_const, Finset.card_univ,
    Fintype.card_fin, nsmul_eq_mul]
  norm_num

/-- The code's entropy function agrees with the spec's histogram-based
Shannon entropy on every chunk. -/
theorem get_entropy_eq_spec (data : List Byte) :
    get_entropy data = specHistEntropy data := by
  by_cases h : data = []
  · subst h
    simp [get_entropy, specHistEntropy]
  · rw [get_entropy, if_neg h, specHistEntropy]
    refine Finset.sum_congr rfl fun x _ => ?_
    have hlen : (0 : ℝ) < data.length := by
      exact_mod_cast List.length_pos.mpr h
    by_cases hc : 0 < data.count x
    · have hp : 0 < (data.count x : ℝ) / data.length :=
        div_pos (by exact_mod_cast hc) hlen
      rw [if_pos hc, if_pos hp]
    · have hc0 : data.count x = 0 := Nat.eq_zero_of_not_pos hc
      rw [if_neg hc, hc0]
      simp

/-! ### Helper lemmas on the chunk sampler -/

theorem sampleChunks_ne_nil (data : List Byte) (h : data ≠ []) :
    ∀ c ∈ sampleChunks data, c ≠ [] := by
  have hlen : 0 < data.length := List.length_pos.mpr h
  intro c hc
  simp only [sampleChunks, List.mem_cons, List.not_mem_nil, or_false] at hc
  rcases hc with hc | hc | hc
  · rw [hc, Ne, List.take_eq_nil_iff]
    simp [h]
  · rw [hc, Ne, List.take_eq_nil_iff, List.drop_eq_nil_iff]
    push_neg
    exact ⟨by norm_num, Nat.div_lt_self hlen (by norm_num)⟩
  · rw [hc, Ne, List.take_eq_nil_iff, List.drop_eq_nil_iff]
    push_neg
    exact ⟨by norm_num, Nat.sub_lt hlen (by norm_num)⟩

theorem sampleChunks_sublist (data : List Byte) :
    ∀ c ∈ sampleChunks data, c.Sublist data := by
  intro c hc
  simp only [sampleChunks, List.mem_cons, List.not_mem_nil, or_false] at hc
  rcases hc with hc | hc | hc
  · exact hc ▸ List.take_sublist _ _
  · exact hc ▸ (List.take_sublist _ _).trans (List.drop_sublist _ _)
  · exact hc ▸ (List.take_sublist _ _).trans (List.drop_sublist _ _)

theorem avg_entropy_eq_specMean (data : List Byte) :
    avg_entropy data = specMeanNonempty (sampleChunks data) := by
  by_cases h : data = []
  · subst h
    simp [avg_entropy, specMeanNonempty, sampleChunks, get_entropy_nil]
  · have hfilter : (sampleChunks data).filter (fun c => !c.isEmpty) = sampleChunks data :=
      List.filter_eq_self.mpr fun c hc => by
        simpa using sampleChunks_ne_nil data h c hc
    simp only [specMeanNonempty, hfilter]
    have hie : (sampleChunks data).isEmpty = false := rfl
    rw [hie]
    simp only [Bool.false_eq_true, if_false]
    rfl

theorem avg_entropy_silesia_eq_specMean (data : List Byte) :
    avg_entropy_silesia data = specMeanNonempty (sampleChunks data) := rfl

/-! ### Claim theorems -/

/-- C4: the entropy function equals the Shannon entropy of the 256-bin
byte histogram; it lies in `[0, 8]` for every chunk, is `0` on the empty
chunk and on every constant-byte buffer of positive length, and is exactly
`8` on a chunk containing each of the 256 byte values once. Both scripts'
entropy functions coincide. -/
theorem claim_C4_entropy :
    (∀ c : List Byte, get_entropy c = specHistEntropy c) ∧
    (∀ c : List Byte, calculate_entropy c = get_entropy c) ∧
    (∀ c : List Byte, 0 ≤ get_entropy c ∧ get_entropy c ≤ 8) ∧
    get_entropy [] = 0 ∧
    (∀ (n : ℕ) (b : Byte), 0 < n → get_entropy (List.replicate n b) = 0) ∧
    get_entropy (List.finRange 256) = 8 :=
  ⟨get_entropy_eq_spec, calculate_entropy_eq,
   fun c => ⟨get_entropy_nonneg c, get_entropy_le_eight c⟩,
   get_entropy_nil, get_entropy_replicate, get_entropy_finRange⟩

theorem claim_C4_entropy_witness :
    0 < 3 ∧ get_entropy (List.replicate 3 (0 : Byte)) = 0 :=
  ⟨by norm_num, claim_C4_entropy.2.2.2.2.1 3 0 (by norm_num)⟩

/-- C5: for every file content, the average entropy computed by each
training variant over the head/mid/tail sample equals the arithmetic mean
of the entropies of the non-empty chunks only, and is 0 when all chunks
are empty. -/
theorem claim_C5_avg_entropy : ∀ data : List Byte,
    avg_entropy data = specMeanNonempty (sampleChunks data) ∧
    avg_entropy_silesia data = specMeanNonempty (sampleChunks data) ∧
    ((∀ c ∈ sampleChunks data, c = []) →
      avg_entropy data = 0 ∧ avg_entropy_silesia data = 0) := by
  intro data
  refine ⟨avg_entropy_eq_specMean data, avg_entropy_silesia_eq_specMean data, fun hall => ?_⟩
  have hfilter : (sampleChunks data).filter (fun c => !c.isEmpty) = [] := by
    rw [List.filter_eq_nil_iff]
    intro c hc
    simp [hall c hc]
  have hspec : specMeanNonempty (sampleChunks data) = 0 := by
    simp [specMeanNonempty, hfilter]
  rw [avg_entropy_eq_specMean data, avg_entropy_silesia_eq_specMean data, hspec]
  exact ⟨rfl, rfl⟩

theorem claim_C5_avg_entropy_witness :
    avg_entropy [] = 0 ∧ avg_entropy_silesia [] = 0 :=
  (claim_C5_avg_entropy []).2.2 (by decide)

/-- C6 counterexample: on the 2-byte file `[0, 1]` the sampler's mid chunk
is `[1]` (the suffix starting at `S/2 = 1`), which differs from the full
file content, refuting "chunks that are all equal to the full file
content". -/
theorem claim_C6_counterexample :
    sampleChunks [(0 : Byte), 1] = [[0, 1], [1], [0, 1]] ∧
    ([1] : List Byte) ≠ [0, 1] := by
  decide

/-- C6 as amended: for every file of size `0 < S < 16384`, the head and
tail chunks equal the full file content, the mid chunk is the suffix
starting at `S/2`, and every chunk is a sublist of the file (no crash, no
out-of-bounds read). -/
theorem claim_C6_amended : ∀ data : List Byte,
    0 < data.length → data.length < 16384 →
    sampleChunks data = [data, data.drop (data.length / 2), data] ∧
    ∀ c ∈ sampleChunks data, c.Sublist data := by
  intro data h1 h2
  refine ⟨?_, sampleChunks_sublist data⟩
  have hhead : data.take 16384 = data := List.take_of_length_le h2.le
  have hmid : (data.drop (data.length / 2)).take 16384 = data.drop (data.length / 2) := by
    refine List.take_of_length_le ?_
    rw [List.length_drop]
    exact le_trans (Nat.sub_le _ _) h2.le
  have htail : (data.drop (data.length - 16384)).take 16384 = data := by
    rw [Nat.sub_eq_zero_of_le h2.le, List.drop_zero]
    exact List.take_of_length_le h2.le
  rw [sampleChunks, hhead, hmid, htail]

theorem claim_C6_amended_witness :
    0 < ([(0 : Byte), 1] : List Byte).length ∧
    ([(0 : Byte), 1] : List Byte).length < 16384 ∧
    (sampleChunks [(0 : Byte), 1] =
      [[0, 1], List.drop (([(0 : Byte), 1] : List Byte).length / 2) [0, 1], [0, 1]] ∧
     ∀ c ∈ sampleChunks [(0 : Byte), 1], c.Sublist [0, 1]) :=
  ⟨by decide, by decide, claim_C6_amended [0, 1] (by decide) (by decide)⟩

/-- C1: for positive original size, the label decision returns `None` (2)
exactly when `min(sizeA, sizeB) > originalSize * 0.95`; otherwise it
returns `AlgoA` (0) exactly when `sizeA < sizeB * 0.98`, and `AlgoB` (1)
in all remaining cases; and the three boundary examples evaluate as
stated. -/
theorem claim_C1_label_policy :
    (∀ original_size sizeA sizeB : ℕ, 0 < original_size →
      ((decideLabel original_size sizeA sizeB = 2 ↔
          ((min sizeA sizeB : ℕ) : ℚ) > (original_size : ℚ) * (95 / 100)) ∧
       (¬ (((min sizeA sizeB : ℕ) : ℚ) > (original_size : ℚ) * (95 / 100)) →
          ((decideLabel original_size sizeA sizeB = 0 ↔
              (sizeA : ℚ) < (sizeB : ℚ) * (98 / 100)) ∧
           (¬ ((sizeA : ℚ) < (sizeB : ℚ) * (98 / 100)) →
              decideLabel original_size sizeA sizeB = 1))))) ∧
    decideLabel 1000 960 900 = 1 ∧
    decideLabel 1000 850 900 = 0 ∧
    decideLabel 1000 960 970 = 2 := by
  refine ⟨fun o a b ho => ?_, by norm_num [decideLabel], by norm_num [decideLabel],
    by norm_num [decideLabel]⟩
  unfold decideLabel
  split_ifs with h1 h2
  · exact ⟨iff_of_true rfl h1, fun hn => absurd h1 hn⟩
  · exact ⟨iff_of_false (by norm_num) h1,
      fun _ => ⟨iff_of_true rfl h2, fun hn => absurd h2 hn⟩⟩
  · exact ⟨iff_of_false (by norm_num) h1,
      fun _ => ⟨iff_of_false (by norm_num) h2, fun _ => rfl⟩⟩

theorem claim_C1_label_policy_witness :
    decideLabel 1000 960 900 = 2 ↔ ((min 960 900 : ℕ) : ℚ) > (1000 : ℚ) * (95 / 100) :=
  (claim_C1_label_policy.1 1000 960 900 (by norm_num)).1

/-- C2 counterexample: with a Zstd oracle that fails on a non-empty input,
`get_best_algo` propagates the failure (`none`) instead of reporting
`sizeB = originalSize` and producing the label `decideLabel 1 1 1`; so a
Zstd failure is fatal to the caller, refuting the claimed symmetry. The
same holds for `get_best_label`. -/
theorem claim_C2_counterexample :
    get_best_algo (fun _ _ => some 1) (fun _ _ => none) [(0 : Byte)] = none ∧
    get_best_algo (fun _ _ => some 1) (fun _ _ => none) [(0 : Byte)] ≠
      some (decideLabel 1 1 1) ∧
    get_best_label (fun _ _ => some 1) (fun _ _ => none) [(0 : Byte)] = none := by
  refine ⟨rfl, ?_, rfl⟩
  rw [show get_best_algo (fun _ _ => some 1) (fun _ _ => none) [(0 : Byte)] = none from rfl]
  simp

/-- C2 as amended: a Brotli failure is isolated — its size falls back to
`originalSize` and a label is still produced — but the Zstd call has no
handler, so a Zstd failure aborts the computation of either ground-truth
function with no label. -/
theorem claim_C2_amended :
    ∀ (brotli zstd : ℕ → List Byte → Option ℕ) (data : List Byte) (s : ℕ),
    data ≠ [] →
    ((zstd 3 data = some s →
        (get_best_algo brotli zstd data =
           some (decideLabel data.length ((brotli 11 data).getD data.length) s) ∧
         (brotli 11 data = none →
            get_best_algo brotli zstd data =
              some (decideLabel data.length data.length s)) ∧
         get_best_label brotli zstd data =
           some (decideLabel data.length ((brotli 4 data).getD data.length) s) ∧
         (brotli 4 data = none →
            get_best_label brotli zstd data =
              some (decideLabel data.length data.length s)))) ∧
     (zstd 3 data = none →
        get_best_algo brotli zstd data = none ∧
        get_best_label brotli zstd data = none)) := by
  intro brotli zstd data s hne
  have hlen : ¬ data.length = 0 := fun h0 => hne (List.length_eq_zero.mp h0)
  constructor
  · intro hz
    refine ⟨?_, fun hb => ?_, ?_, fun hb => ?_⟩
    · simp only [get_best_algo, if_neg hlen, hz]
    · simp only [get_best_algo, if_neg hlen, hz, hb, Option.getD_none]
    · simp only [get_best_label, if_neg hlen, hz]
    · simp only [get_best_label, if_neg hlen, hz, hb, Option.getD_none]
  · intro hz
    exact ⟨by simp only [get_best_algo, if_neg hlen, hz],
           by simp only [get_best_label, if_neg hlen, hz]⟩

theorem claim_C2_amended_witness :
    get_best_algo (fun _ _ => none) (fun _ _ => some 1) [(0 : Byte)] =
      some (decideLabel 1 1 1) :=
  ((claim_C2_amended (fun _ _ => none) (fun _ _ => some 1) [0] 1 (by decide)).1 rfl).2.1 rfl

/-- C3: on a zero-length file both ground-truth functions return label
`None` (2) for every pair of codec oracles — so no codec result can
influence the outcome — and both feature builders produce `[0, 0, hint]`
where only the type hint depends on the filename. -/
theorem claim_C3_zero_length :
    ∀ (brotli zstd : ℕ → List Byte → Option ℕ) (fname : List Char),
    get_best_algo brotli zstd [] = some 2 ∧
    get_best_label brotli zstd [] = some 2 ∧
    features_real fname [] = [0, 0, (hintExt fname : ℝ)] ∧
    extract_features fname [] = [0, 0, (hintName fname : ℝ)] := by
  intro brotli zstd fname
  refine ⟨rfl, rfl, ?_, ?_⟩
  · simp [features_real, avg_entropy, sampleChunks, get_entropy_nil]
  · simp [extract_features, avg_entropy_silesia, sampleChunks]

/-! ### Helper lemmas on the type hints and the label range -/

theorem hintExt_range (fname : List Char) :
    hintExt fname = 0 ∨ hintExt fname = 1 ∨ hintExt fname = 2 := by
  simp only [hintExt]
  split_ifs <;> simp

theorem hintName_range (fname : List Char) :
    hintName fname = 0 ∨ hintName fname = 1 ∨ hintName fname = 2 := by
  simp only [hintName]
  split_ifs <;> simp

/-- `hintName` with its boolean test rewritten as a proposition. -/
theorem hintName_eq (fname : List Char) :
    hintName fname =
      if (".zst".data.isSuffixOf (fname.map Char.toLower) = true ∨
          fname.map Char.toLower ∈ ["mr".data]) then 2
      else if fname.map Char.toLower ∈
          ["dickens".data, "samba".data, "webster".data, "xml".data] then 1
      else 0 := by
  simp only [hintName, Bool.or_eq_true, decide_eq_true_eq]

theorem decideLabel_range (o a b : ℕ) :
    decideLabel o a b = 0 ∨ decideLabel o a b = 1 ∨ decideLabel o a b = 2 := by
  unfold decideLabel
  split_ifs <;> simp

theorem get_best_algo_range (brotli zstd : ℕ → List Byte → Option ℕ)
    (data : List Byte) (l : ℕ) (h : get_best_algo brotli zstd data = some l) :
    l = 0 ∨ l = 1 ∨ l = 2 := by
  simp only [get_best_algo] at h
  by_cases h0 : data.length = 0
  · rw [if_pos h0] at h
    simp only [Option.some.injEq] at h
    omega
  · rw [if_neg h0] at h
    cases hz : zstd 3 data with
    | none => rw [hz] at h; simp at h
    | some s =>
      rw [hz] at h
      simp only [Option.some.injEq] at h
      rw [← h]
      exact decideLabel_range _ _ _

theorem get_best_label_range (brotli zstd : ℕ → List Byte → Option ℕ)
    (data : List Byte) (l : ℕ) (h : get_best_label brotli zstd data = some l) :
    l = 0 ∨ l = 1 ∨ l = 2 := by
  simp only [get_best_label] at h
  by_cases h0 : data.length = 0
  · rw [if_pos h0] at h
    simp only [Option.some.injEq] at h
    omega
  · rw [if_neg h0] at h
    cases hz : zstd 3 data with
    | none => rw [hz] at h; simp at h
    | some s =>
      rw [hz] at h
      simp only [Option.some.injEq] at h
      rw [← h]
      exact decideLabel_range _ _ _

/-- A dot-free string is returned whole by `split('.')`. -/
theorem splitOnChar_eq_single (sep : Char) (s : List Char) (h : sep ∉ s) :
    splitOnChar sep s = [s] := by
  induction s with
  | nil => rfl
  | cons c rest ih =>
    have hc : ¬ c = sep := by
      rintro rfl
      exact h (List.mem_cons_self _ _)
    have hrest : sep ∉ rest := fun hr => h (List.mem_cons_of_mem c hr)
    simp only [splitOnChar, ih hrest]
    rw [if_neg hc]

/-- C7: both type-hint classifiers are total with range `{0, 1, 2}`;
case-insensitively, the extensions `txt/csv/js/md` map to Text (1) and
`jpg/mp4/zip` to Media (2); the basenames `dickens/samba/webster/xml` map
to Text, a `.zst` suffix or the name `mr` to Media; everything else
defaults to Generic (0). -/
theorem claim_C7_type_hint : ∀ fname : List Char,
    (hintExt fname = 0 ∨ hintExt fname = 1 ∨ hintExt fname = 2) ∧
    (hintName fname = 0 ∨ hintName fname = 1 ∨ hintName fname = 2) ∧
    (((splitOnChar '.' fname).getLastD []).map Char.toLower ∈
        ["txt".data, "csv".data, "js".data, "md".data] → hintExt fname = 1) ∧
    (((splitOnChar '.' fname).getLastD []).map Char.toLower ∈
        ["jpg".data, "mp4".data, "zip".data] → hintExt fname = 2) ∧
    (((splitOnChar '.' fname).getLastD []).map Char.toLower ∉
        ["txt".data, "csv".data, "js".data, "md".data] →
      ((splitOnChar '.' fname).getLastD []).map Char.toLower ∉
        ["jpg".data, "mp4".data, "zip".data] → hintExt fname = 0) ∧
    (fname.map Char.toLower ∈
        ["dickens".data, "samba".data, "webster".data, "xml".data] → hintName fname = 1) ∧
    ((".zst".data.isSuffixOf (fname.map Char.toLower) = true ∨
        fname.map Char.toLower = "mr".data) → hintName fname = 2) ∧
    (¬ (".zst".data.isSuffixOf (fname.map Char.toLower) = true) →
      fname.map Char.toLower ≠ "mr".data →
      fname.map Char.toLower ∉
        ["dickens".data, "samba".data, "webster".data, "xml".data] →
      hintName fname = 0) := by
  intro fname
  refine ⟨hintExt_range fname, hintName_range fname, ?_, ?_, ?_, ?_, ?_, ?_⟩
  · intro hmem
    have hnot : ((splitOnChar '.' fname).getLastD []).map Char.toLower ∉
        ["jpg".data, "mp4".data, "zip".data] := by
      simp only [List.mem_cons, List.not_mem_nil, or_false] at hmem ⊢
      push_neg
      rcases hmem with h | h | h | h <;> rw [h] <;> exact ⟨by decide, by decide, by decide⟩
    simp only [hintExt]
    rw [if_neg hnot, if_pos hmem]
  · intro hmem
    simp only [hintExt]
    rw [if_pos hmem]
  · intro h1 h2
    simp only [hintExt]
    rw [if_neg h2, if_neg h1]
  · intro hmem
    have hcond : ¬ (".zst".data.isSuffixOf (fname.map Char.toLower) = true ∨
        fname.map Char.toLower ∈ ["mr".data]) := by
      simp only [List.mem_cons, List.not_mem_nil, or_false] at hmem ⊢
      push_neg
      rcases hmem with h | h | h | h <;> rw [h] <;> exact ⟨by decide, by decide⟩
    rw [hintName_eq, if_neg hcond, if_pos hmem]
  · intro hor
    have hcond : (".zst".data.isSuffixOf (fname.map Char.toLower) = true ∨
        fname.map Char.toLower ∈ ["mr".data]) := by
      rcases hor with h | h
      · exact Or.inl h
      · exact Or.inr (by simp [h])
    rw [hintName_eq, if_pos hcond]
  · intro hs hmr hmem
    have hcond : ¬ (".zst".data.isSuffixOf (fname.map Char.toLower) = true ∨
        fname.map Char.toLower ∈ ["mr".data]) := by
      push_neg
      exact ⟨hs, by simp [hmr]⟩
    rw [hintName_eq, if_neg hcond, if_neg hmem]

theorem claim_C7_type_hint_witness :
    hintExt "notes.TXT".data = 1 ∧ hintName "MR".data = 2 ∧
    hintExt "a.bin".data = 0 ∧ hintName "dickens".data = 1 :=
  ⟨(claim_C7_type_hint "notes.TXT".data).2.2.1 (by decide),
   (claim_C7_type_hint "MR".data).2.2.2.2.2.2.1 (Or.inr (by decide)),
   (claim_C7_type_hint "a.bin".data).2.2.2.2.1 (by decide) (by decide),
   (claim_C7_type_hint "dickens".data).2.2.2.2.2.1 (by decide)⟩

/-- C8: every feature vector has exactly 3 components in the fixed order
`[avgEntropy, log10(size + 1), typeHint]` in both training variants, the
hint is an integer in `{0, 1, 2}`, and every emitted label is an integer
in `{0 = Brotli, 1 = Zstd, 2 = None}`. -/
theorem claim_C8_layout :
    ∀ (fname : List Char) (data : List Byte)
      (brotli zstd : ℕ → List Byte → Option ℕ) (l : ℕ),
    (features_real fname data).length = 3 ∧
    features_real fname data =
      [avg_entropy data, Real.logb 10 ((data.length : ℝ) + 1), (hintExt fname : ℝ)] ∧
    (extract_features fname data).length = 3 ∧
    extract_features fname data =
      [avg_entropy_silesia data, Real.logb 10 ((data.length : ℝ) + 1), (hintName fname : ℝ)] ∧
    (hintExt fname = 0 ∨ hintExt fname = 1 ∨ hintExt fname = 2) ∧
    (hintName fname = 0 ∨ hintName fname = 1 ∨ hintName fname = 2) ∧
    (get_best_algo brotli zstd data = some l → l = 0 ∨ l = 1 ∨ l = 2) ∧
    (get_best_label brotli zstd data = some l → l = 0 ∨ l = 1 ∨ l = 2) := by
  intro fname data brotli zstd l
  exact ⟨rfl, rfl, rfl, rfl, hintExt_range fname, hintName_range fname,
    get_best_algo_range brotli zstd data l, get_best_label_range brotli zstd data l⟩

theorem claim_C8_layout_witness :
    (2 = 0 ∨ 2 = 1 ∨ 2 = 2) ∧ (features_real "a.txt".data []).length = 3 :=
  ⟨(claim_C8_layout "a.txt".data [] (fun _ _ => some 0) (fun _ _ => some 0) 2).2.2.2.2.2.2.1
      rfl,
   (claim_C8_layout "a.txt".data [] (fun _ _ => some 0) (fun _ _ => some 0) 2).1⟩

/-- C10: a filename with no `'.'` is treated whole as its own extension by
`split('.')[-1]`, so the bare names `txt/csv/js/md` classify as Text (1)
and `jpg/mp4/zip` as Media (2) instead of Generic. -/
theorem claim_C10_dotless :
    (∀ fname : List Char, '.' ∉ fname → (splitOnChar '.' fname).getLastD [] = fname) ∧
    hintExt "txt".data = 1 ∧ hintExt "csv".data = 1 ∧ hintExt "js".data = 1 ∧
    hintExt "md".data = 1 ∧ hintExt "jpg".data = 2 ∧ hintExt "mp4".data = 2 ∧
    hintExt "zip".data = 2 := by
  refine ⟨fun fname h => ?_, by decide, by decide, by decide, by decide, by decide,
    by decide, by decide⟩
  rw [splitOnChar_eq_single '.' fname h]
  rfl

theorem claim_C10_dotless_witness :
    ('.' ∉ "txt".data) ∧ (splitOnChar '.' "txt".data).getLastD [] = "txt".data :=
  ⟨by decide, claim_C10_dotless.1 "txt".data (by decide)⟩

/-- C9 counterexample: the two ground-truth functions race Brotli at
different quality settings (the library default 11 in `get_best_algo`,
`quality=4` in `get_best_label`), so with a Brotli codec whose output size
differs between those qualities (8 bytes at quality 11, 10 bytes at
quality 4, on a 10-byte input with Zstd at 10 bytes) they disagree:
`get_best_algo` labels Brotli (0) while `get_best_label` labels None (2),
refuting extensional equality at the same fixed setting. -/
theorem claim_C9_counterexample :
    get_best_algo (fun q _ => if q = 11 then some 8 else some 10) (fun _ _ => some 10)
        (List.replicate 10 0) = some 0 ∧
    get_best_label (fun q _ => if q = 11 then some 8 else some 10) (fun _ _ => some 10)
        (List.replicate 10 0) = some 2 ∧
    (some 0 : Option ℕ) ≠ some 2 := by
  refine ⟨?_, ?_, by simp⟩
  · simp only [get_best_algo, List.length_replicate]
    norm_num [decideLabel]
  · simp only [get_best_label, List.length_replicate]
    norm_num [decideLabel]

/-- C9 as amended: both variants apply the same decision policy and the
same Zstd level (3), but call Brotli at different qualities (default 11 vs
4); they produce the same label on every input where Brotli's output size
at the two qualities coincides. -/
theorem claim_C9_amended :
    ∀ (brotli zstd : ℕ → List Byte → Option ℕ) (data : List Byte),
    brotli 11 data = brotli 4 data →
    get_best_algo brotli zstd data = get_best_label brotli zstd data := by
  intro brotli zstd data h
  simp only [get_best_algo, get_best_label, h]

theorem claim_C9_amended_witness :
    get_best_algo (fun _ _ => some 5) (fun _ _ => some 5) [(0 : Byte)] =
      get_best_label (fun _ _ => some 5) (fun _ _ => some 5) [(0 : Byte)] :=
  claim_C9_amended (fun _ _ => some 5) (fun _ _ => some 5) [0] rfl

end SmartStream
